import Mathlib

/-!
Shallow embedding of the release-watcher checkers
(`rss_checker.py`, `youtube_checker.py`, `crawl_checker.py`,
`arxiv_checker.py`, `release_checker.py`) and proofs about the
change-detection / flood-guard / budget / persistence logic.

Modelling conventions:
* timestamps are `Int` (UTC instants; the unit is hours, which only fixes a
  scale); a missing or unparseable date is `Option.none` (the Python code
  obtains `None` from `get_entry_date` in the feed checkers);
* the Telegram notifier is a pure `Bool`-valued success function of the item
  (the core only consumes the returned success flag);
* the persisted JSON history file is a `FileState`: absent, present but
  undecodable, or decoded content;
* Python's stable `list.sort` is modelled by `List.insertionSort`, which is
  stable for a total preorder on the key, hence produces the same list.
-/

/-- State of the history file on disk: missing, present but not decodable
JSON, or decodable with the given content. -/
inductive FileState (α : Type) where
  | absent : FileState α
  | corrupt : FileState α
  | valid : α → FileState α

/-- Python `l[-n:]` truncation applied under the guard `len(l) > n`
(this is how every checker bounds its history). The result keeps the most
recently appended entries. -/
def truncTo {α : Type} (n : Nat) (l : List α) : List α :=
  if n < l.length then l.drop (l.length - n) else l

/-- The notification loop shared by the feed checkers: iterate over the
items to send, attempt delivery of every one of them, and on success append
the item's identity to the history and raise the `updated_history` flag.
State is `(history, delivered so far, updated flag)`. -/
def sendLoop {ε ι : Type} (idOf : ε → ι) (notify : ε → Bool) :
    List ι × List ε × Bool → List ε → List ι × List ε × Bool
  | st, [] => st
  | (h, d, u), e :: rest =>
    if notify e then sendLoop idOf notify (h ++ [idOf e], d ++ [e], true) rest
    else sendLoop idOf notify (h, d, u) rest

namespace Feed

/-- A normalized feed entry as the rss/youtube checkers see it:
`entry.get("id")`, `entry.get("link")`, the UTC-parsed published/updated
date (`none` when missing or unparseable), and the title. -/
structure Entry where
  id : Option String
  link : Option String
  published : Option Int
  title : String
deriving DecidableEq, Repr

/-- `post_id = entry.get("id", entry.get("link"))`: the identity used for
history lookups; it is `none` when the entry has neither id nor link. -/
def post_id (e : Entry) : Option String :=
  e.id.orElse fun _ => e.link

/-- Sort key relation used by `entries_to_send.sort(key=lambda x: x[0])`:
compare the (present) published dates. Candidates always carry a date, so
the `getD 0` default is never the deciding value there. -/
def rle (a b : Entry) : Prop :=
  a.published.getD 0 ≤ b.published.getD 0

instance : DecidableRel rle := fun a b =>
  inferInstanceAs (Decidable ((a.published.getD 0 : Int) ≤ b.published.getD 0))

instance : IsTotal Entry rle := ⟨fun _ _ => le_total _ _⟩

instance : IsTrans Entry rle := ⟨fun _ _ _ hab hbc => le_trans hab hbc⟩

/-- Result of processing one feed: the delivery attempts in order, the
successfully delivered entries, the new per-source history after
truncation, and this feed's contribution to `updated_history`. -/
structure Result where
  attempts : List Entry
  delivered : List Entry
  hist : List (Option String)
  mutated : Bool
deriving Repr

/-- The per-feed body shared by the rss and youtube checkers: filter the
fetched entries with the checker's candidate test, sort ascending by date
(Python's stable sort), attempt each in order, and truncate the history to
the checker's bound. -/
def procEntries (keep : Entry → Bool) (truncN : Nat) (notify : Entry → Bool)
    (hist₀ : List (Option String)) (entries : List Entry) : Result :=
  let toSend := List.insertionSort rle (entries.filter keep)
  let out := sendLoop post_id notify (hist₀, [], false) toSend
  ⟨toSend, out.2.1, truncTo truncN out.1, out.2.2⟩

/-- Run-level state shared by the rss and youtube checkers: the in-memory
history store (source name to identity list; a missing key reads as the
empty list the Python code inserts on first encounter), the global
`updated_history` flag, and the run-wide delivery/attempt logs. -/
structure RunSt where
  hist : String → List (Option String)
  updated : Bool
  deliveries : List (String × Entry)
  attempts : List (String × Entry)

/-- Fold one processed feed's result into the run state. -/
def applyResult (st : RunSt) (name : String) (r : Result) : RunSt :=
  ⟨fun n => if n = name then r.hist else st.hist n,
    st.updated || r.mutated,
    st.deliveries ++ r.delivered.map ((name, ·)),
    st.attempts ++ r.attempts.map ((name, ·))⟩

end Feed

namespace Rss

/-- The rss checker's candidate test (rss_checker.py lines 203–215): skip
entries whose `post_id` is already in this feed's history, skip entries
without a parseable date, and keep entries strictly newer than the
lookback threshold. -/
def keep (hist : List (Option String)) (threshold : Int)
    (e : Feed.Entry) : Bool :=
  !decide (Feed.post_id e ∈ hist) &&
    (match e.published with
     | none => false
     | some d => decide (threshold < d))

/-- `entries_to_send` after the ascending date sort (lines 201–217). -/
def entries_to_send (hist : List (Option String)) (threshold : Int)
    (entries : List Feed.Entry) : List Feed.Entry :=
  List.insertionSort Feed.rle (entries.filter (keep hist threshold))

/-- Processing of one rss feed (lines 200–231): candidates, ascending date
sort, delivery attempts, history appends on success, truncation to 50. -/
def processEntries (notify : Feed.Entry → Bool) (hist₀ : List (Option String))
    (threshold : Int) (entries : List Feed.Entry) : Feed.Result :=
  Feed.procEntries (keep hist₀ threshold) 50 notify hist₀ entries

/-- One configured rss feed together with the outcome of fetching it:
`fetched = none` models `feedparser.parse` raising (the feed is skipped). -/
structure Cfg where
  name : String
  check_hours : Int
  fetched : Option (List Feed.Entry)

/-- One iteration of the feed loop of `check_feeds` (lines 169–231):
daily feeds are skipped outside the morning window, fetch failures skip the
feed, otherwise the feed is processed against its own history slot with
lookback threshold `now - 3 * check_hours`. -/
def runStep (notify : String → Feed.Entry → Bool) (now : Int)
    (is_morning_run : Bool) (st : Feed.RunSt) (cfg : Cfg) : Feed.RunSt :=
  if 24 ≤ cfg.check_hours && !is_morning_run then st
  else
    match cfg.fetched with
    | none => st
    | some entries =>
      Feed.applyResult st cfg.name
        (processEntries (notify cfg.name) (st.hist cfg.name)
          (now - 3 * cfg.check_hours) entries)

/-- The whole rss run (`check_feeds`): fold over the configured feeds and
finally call `save_history` if and only if `updated_history` is set
(lines 233–234). The second component records whether the file was
written. -/
def check_feeds (notify : String → Feed.Entry → Bool) (now : Int)
    (is_morning_run : Bool) (hist₀ : String → List (Option String))
    (cfgs : List Cfg) : Feed.RunSt × Bool :=
  let st := cfgs.foldl (runStep notify now is_morning_run)
    ⟨hist₀, false, [], []⟩
  (st, st.updated)

/-- The sequence of delivery attempts an rss run makes, computed directly
by recursion over the configured feeds while threading the store. Used to
state which items a run attempts (notably: that delivery failures do not
change it). -/
def newAttempts (notify : String → Feed.Entry → Bool) (now : Int)
    (is_morning_run : Bool) (hist : String → List (Option String)) :
    List Cfg → List (String × Feed.Entry)
  | [] => []
  | cfg :: rest =>
    if 24 ≤ cfg.check_hours && !is_morning_run then
      newAttempts notify now is_morning_run hist rest
    else
      match cfg.fetched with
      | none => newAttempts notify now is_morning_run hist rest
      | some entries =>
        let r := processEntries (notify cfg.name) (hist cfg.name)
          (now - 3 * cfg.check_hours) entries
        r.attempts.map ((cfg.name, ·)) ++
          newAttempts notify now is_morning_run
            (fun n => if n = cfg.name then r.hist else hist n) rest

/-- `load_history` of the rss checker (lines 132–136): a missing file
yields the empty store, but `json.load` on an undecodable file raises an
uncaught `JSONDecodeError`, modelled as `Except.error`. The store content
is the decoded JSON object, a map from feed name to identity list. -/
def load_history (fs : FileState (List (String × List (Option String)))) :
    Except Unit (List (String × List (Option String))) :=
  match fs with
  | .absent => .ok []
  | .corrupt => .error ()
  | .valid d => .ok d

end Rss

namespace Youtube

/-- Python's substring test `pat in s` on the underlying character
lists: `pat` occurs somewhere in `s`. -/
def containsSub (s pat : List Char) : Bool :=
  match s with
  | [] => pat.isEmpty
  | _ :: rest => pat.isPrefixOf s || containsSub rest pat

def strContains (s pat : String) : Bool :=
  containsSub s.data pat.data

/-- `str.lower()`, characterwise (`Char.toLower`; the pattern matched
against, `#shorts`, is ASCII, for which this matches Python). -/
def lowerStr (s : String) : String :=
  ⟨s.data.map Char.toLower⟩

/-- `is_youtube_short` (youtube_checker.py lines 59–66): a short is an
entry whose link (`entry.get("link", "")`) contains `/shorts/` or whose
lowercased title contains `#shorts`. -/
def is_youtube_short (e : Feed.Entry) : Bool :=
  strContains (e.link.getD "") "/shorts/" ||
    strContains (lowerStr e.title) "#shorts"

/-- The youtube checker's candidate test (lines 220–236): history check,
then date check, then Shorts suppression, then the 30-hour lookback
window. -/
def keep (hist : List (Option String)) (threshold : Int)
    (e : Feed.Entry) : Bool :=
  !decide (Feed.post_id e ∈ hist) &&
    (match e.published with
     | none => false
     | some d => !is_youtube_short e && decide (threshold < d))

def entries_to_send (hist : List (Option String)) (threshold : Int)
    (entries : List Feed.Entry) : List Feed.Entry :=
  List.insertionSort Feed.rle (entries.filter (keep hist threshold))

/-- Processing of one youtube feed (lines 215–274): like the rss checker
but with the Shorts filter, the fixed 30-hour lookback and history
truncation to 20. The AI-summary generation only changes the message body
(all its failures are caught), so it does not appear in the model. -/
def processEntries (notify : Feed.Entry → Bool) (hist₀ : List (Option String))
    (threshold : Int) (entries : List Feed.Entry) : Feed.Result :=
  Feed.procEntries (keep hist₀ threshold) 20 notify hist₀ entries

/-- One configured youtube feed; `fetched = none` models a parse failure. -/
structure Cfg where
  name : String
  fetched : Option (List Feed.Entry)

/-- One iteration of the youtube `check_feeds` loop (lines 201–274). -/
def runStep (notify : String → Feed.Entry → Bool) (now : Int)
    (st : Feed.RunSt) (cfg : Cfg) : Feed.RunSt :=
  match cfg.fetched with
  | none => st
  | some entries =>
    Feed.applyResult st cfg.name
      (processEntries (notify cfg.name) (st.hist cfg.name) (now - 30) entries)

/-- The whole youtube run (`check_feeds`, lines 189–277): the history file
is written iff `updated_history` is set. -/
def check_feeds (notify : String → Feed.Entry → Bool) (now : Int)
    (hist₀ : String → List (Option String)) (cfgs : List Cfg) :
    Feed.RunSt × Bool :=
  let st := cfgs.foldl (runStep notify now) ⟨hist₀, false, [], []⟩
  (st, st.updated)

end Youtube

namespace Crawl

/-- An item produced by a crawl extractor: link, raw `published_at`
(already passed through date parsing: `none` models a missing or
unparseable string), title. -/
structure Item where
  link : Option String
  published : Option Int
  title : String
deriving DecidableEq, Repr

/-- `parse_date_safe` (crawl_checker.py lines 32–47): a missing or
unparseable date string becomes the epoch, "to ensure sortability". -/
def parse_date_safe (d : Option Int) : Int :=
  d.getD 0

/-- Sort relation of `items.sort(key=parse_date_safe, reverse=True)`
(line 166): newest first; Python's sort is stable, matching
`insertionSort`. -/
def dsc (a b : Item) : Prop :=
  parse_date_safe b.published ≤ parse_date_safe a.published

instance : DecidableRel dsc := fun a b =>
  inferInstanceAs (Decidable (parse_date_safe b.published ≤ parse_date_safe a.published))

instance : IsTotal Item dsc := ⟨fun _ _ => le_total _ _⟩

instance : IsTrans Item dsc := ⟨fun _ _ _ hab hbc => le_trans hbc hab⟩

def itemsSorted (items : List Item) : List Item :=
  List.insertionSort dsc items

/-- Step 2 of `check_crawlers` (lines 168–175): keep items that have a
non-empty link not yet in this source's history, paired with that link.
Items without a link are dropped entirely. -/
def new_items (hist : List String) (items : List Item) :
    List (String × Item) :=
  items.filterMap fun i =>
    match i.link with
    | none => none
    | some l => if l = "" then none else if l ∈ hist then none else some (l, i)

/-- The candidate list of one crawled source: `new_items` computed from
the date-sorted (newest first) item list. -/
def candidates (hist : List String) (items : List Item) :
    List (String × Item) :=
  new_items hist (itemsSorted items)

/-- Result of processing one crawled source. `suppressed` logs the links
the flood guard appended to history silently (lines 196–197), the second
mutation kind the crawl checker flags. -/
structure Result where
  attempts : List (String × Item)
  delivered : List (String × Item)
  hist : List String
  mutated : Bool
  suppressed : List String
deriving Repr

/-- Processing of one crawled source (lines 161–216): empty extractions
and empty candidate lists short-circuit (skipping even the truncation);
more than 3 candidates trigger the spam protection that sends only the
newest item (`new_items[0]`) and silently appends every other candidate's
link to history, setting `updated_history` "so we save even if send
fails" (line 198); the surviving items are attempted oldest first
(`reversed(to_send)`) and each success appends its link; the history is
finally truncated to 50. -/
def processItems (notify : Item → Bool) (hist₀ : List String)
    (items : List Item) : Result :=
  if items.isEmpty then ⟨[], [], hist₀, false, []⟩
  else
    let ni := candidates hist₀ items
    if ni.isEmpty then ⟨[], [], hist₀, false, []⟩
    else
      let pre :=
        if 3 < ni.length then
          (ni.take 1, hist₀ ++ (ni.drop 1).map Prod.fst, true,
            (ni.drop 1).map Prod.fst)
        else (ni, hist₀, false, [])
      let out := sendLoop Prod.fst (fun li => notify li.2)
        (pre.2.1, [], pre.2.2.1) pre.1.reverse
      ⟨pre.1.reverse, out.2.1, truncTo 50 out.1, out.2.2, pre.2.2.2⟩

/-- One configured crawled source; `fetched = none` models an unknown
extractor key, a fetch failure, or an extraction failure (lines 134–159),
each of which skips the source. -/
structure Cfg where
  name : String
  fetched : Option (List Item)

/-- Run-level state of `check_crawlers`: the in-memory store (source name
to link list; a missing key reads as the empty list inserted on first
encounter), the global `updated_history` flag, and run-wide logs of the
delivered items and of the links the flood guard recorded silently. -/
structure RunSt where
  hist : String → List String
  updated : Bool
  deliveries : List (String × Item)
  suppressed : List String

/-- One iteration of the source loop of `check_crawlers` (lines 129–216). -/
def runStep (notify : String → Item → Bool) (st : RunSt) (cfg : Cfg) :
    RunSt :=
  match cfg.fetched with
  | none => st
  | some items =>
    let r := processItems (notify cfg.name) (st.hist cfg.name) items
    ⟨fun n => if n = cfg.name then r.hist else st.hist n,
      st.updated || r.mutated,
      st.deliveries ++ r.delivered.map (fun li => (cfg.name, li.2)),
      st.suppressed ++ r.suppressed⟩

/-- The whole crawl run (`check_crawlers`, lines 118–219): fold over the
configured sources and finally call `save_history` iff `updated_history`
is set (lines 218–219). The second component records whether the file was
written. -/
def check_crawlers (notify : String → Item → Bool)
    (hist₀ : String → List String) (cfgs : List Cfg) : RunSt × Bool :=
  let st := cfgs.foldl (runStep notify) ⟨hist₀, false, [], []⟩
  (st, st.updated)

/-- `load_history` of the crawl checker (lines 106–110): same shape as the
rss one — a missing file is an empty store, an undecodable file raises. -/
def load_history (fs : FileState (List (String × List String))) :
    Except Unit (List (String × List String)) :=
  match fs with
  | .absent => .ok []
  | .corrupt => .error ()
  | .valid d => .ok d

end Crawl

namespace Arxiv

/-- `MAX_HISTORY_SIZE` (arxiv_checker.py line 16). -/
def MAX_HISTORY_SIZE : Nat := 100

/-- `MAX_NOTIFICATIONS_PER_RUN` (line 17): the run budget. -/
def MAX_NOTIFICATIONS_PER_RUN : Nat := 5

/-- One arxiv result as the checker consumes it: `get_short_id()`, title,
summary and the published date (the arxiv library always supplies one). -/
structure Paper where
  short_id : String
  title : String
  summary : String
  published : Int
deriving DecidableEq, Repr

/-- One configured search; `fetched` is the adapter's result list in the
order the client returned it (`none` models the fetch raising, line
153–155). The keyword regex test `re.search(r"\b..\b", text, IGNORECASE)`
is abstracted as the ambient function `kwMatch text keyword`. -/
structure Search where
  keywords : List String
  fetched : Option (List Paper)

/-- `load_history` of the arxiv checker (lines 93–103): a missing file,
an undecodable file (`JSONDecodeError` is caught) and a file whose JSON is
not a list (modelled by `valid none`) all yield the empty list. -/
def load_history (fs : FileState (Option (List String))) : List String :=
  match fs with
  | .absent => []
  | .corrupt => []
  | .valid none => []
  | .valid (some l) => l

/-- `save_history` (lines 106–112): truncate to the last
`MAX_HISTORY_SIZE` entries, then write. Returns the written content. -/
def save_history (history : List String) : List String :=
  truncTo MAX_HISTORY_SIZE history

/-- In-memory state of `check_arxiv` while iterating: the seen-set
`history` (Python keeps it as a set; only membership and insertion are
used), `new_history_items`, `notifications_sent`, plus the observable
attempt/delivery logs. -/
structure St where
  hist : List String
  new_history_items : List String
  notifications_sent : Nat
  attempts : List Paper
  delivered : List Paper
deriving Repr

/-- The body of the paper loop (lines 157–201). The Python `break` on an
exhausted budget is modelled by the guard at the top of every iteration;
this is equivalent because `notifications_sent` never decreases. A paper
matching no keyword (with keywords configured) is marked seen without
delivery; otherwise delivery is attempted, and only success increments the
budget and appends to the history. -/
def paperStep (kwMatch : String → String → Bool) (notify : Paper → Bool)
    (keywords : List String) (st : St) (p : Paper) : St :=
  if MAX_NOTIFICATIONS_PER_RUN ≤ st.notifications_sent then st
  else if p.short_id ∈ st.hist then st
  else
    let matched := keywords.filter fun k =>
      kwMatch (p.title ++ " " ++ p.summary) k
    if !keywords.isEmpty && matched.isEmpty then
      { st with hist := st.hist ++ [p.short_id],
                new_history_items := st.new_history_items ++ [p.short_id] }
    else
      if notify p then
        { st with notifications_sent := st.notifications_sent + 1,
                  hist := st.hist ++ [p.short_id],
                  new_history_items := st.new_history_items ++ [p.short_id],
                  attempts := st.attempts ++ [p],
                  delivered := st.delivered ++ [p] }
      else { st with attempts := st.attempts ++ [p] }

/-- One iteration of the search loop (lines 130–201): stop when the budget
is exhausted, skip searches whose fetch failed, and otherwise process the
fetched results oldest first (`results.reverse()`, line 152). -/
def searchStep (kwMatch : String → String → Bool) (notify : Paper → Bool)
    (st : St) (s : Search) : St :=
  if MAX_NOTIFICATIONS_PER_RUN ≤ st.notifications_sent then st
  else
    match s.fetched with
    | none => st
    | some results =>
      results.reverse.foldl (paperStep kwMatch notify s.keywords) st

def runSearches (kwMatch : String → String → Bool) (notify : Paper → Bool)
    (hist₀ : List String) (searches : List Search) : St :=
  searches.foldl (searchStep kwMatch notify) ⟨hist₀, [], 0, [], []⟩

/-- Result of a whole arxiv run: the final loop state and the content
written to the history file (`none` would mean the file was left
untouched). -/
structure RunResult where
  st : St
  savedFile : Option (List String)

/-- `check_arxiv` (lines 115–209): load the history file, run all
searches, then re-load the file, append the new identities not already
present, and unconditionally save (lines 203–209 run on every invocation
that found the config file). -/
def check_arxiv (kwMatch : String → String → Bool) (notify : Paper → Bool)
    (file : FileState (Option (List String))) (searches : List Search) :
    RunResult :=
  let st := runSearches kwMatch notify (load_history file) searches
  let merged := st.new_history_items.foldl
    (fun acc i => if i ∈ acc then acc else acc ++ [i]) (load_history file)
  ⟨st, some (save_history merged)⟩

end Arxiv

/-! ## Helper lemmas -/

theorem truncTo_length_le {α : Type} (n : Nat) (l : List α) :
    (truncTo n l).length ≤ n := by
  unfold truncTo
  split
  · simp only [List.length_drop]
    omega
  · omega

theorem truncTo_suffix {α : Type} (n : Nat) (l : List α) :
    (truncTo n l).IsSuffix l := by
  unfold truncTo
  split
  · exact List.drop_suffix _ _
  · exact List.suffix_rfl

theorem mem_of_mem_truncTo {α : Type} {n : Nat} {l : List α} {a : α}
    (h : a ∈ truncTo n l) : a ∈ l :=
  (truncTo_suffix n l).subset h

theorem truncTo_of_length_le {α : Type} {n : Nat} {l : List α}
    (h : l.length ≤ n) : truncTo n l = l := by
  unfold truncTo
  split
  · omega
  · rfl

theorem sendLoop_eq {ε ι : Type} (idOf : ε → ι) (notify : ε → Bool)
    (h : List ι) (d : List ε) (u : Bool) (l : List ε) :
    sendLoop idOf notify (h, d, u) l =
      (h ++ (l.filter notify).map idOf, d ++ l.filter notify,
        u || !(l.filter notify).isEmpty) := by
  induction l generalizing h d u with
  | nil => simp [sendLoop]
  | cons e rest ih =>
    by_cases he : notify e
    · simp [sendLoop, he, ih]
    · simp [sendLoop, he, ih]

theorem procEntries_attempts (keep : Feed.Entry → Bool) (truncN : Nat)
    (notify : Feed.Entry → Bool) (hist₀ : List (Option String))
    (entries : List Feed.Entry) :
    (Feed.procEntries keep truncN notify hist₀ entries).attempts =
      List.insertionSort Feed.rle (entries.filter keep) := rfl

theorem procEntries_delivered (keep : Feed.Entry → Bool) (truncN : Nat)
    (notify : Feed.Entry → Bool) (hist₀ : List (Option String))
    (entries : List Feed.Entry) :
    (Feed.procEntries keep truncN notify hist₀ entries).delivered =
      (Feed.procEntries keep truncN notify hist₀ entries).attempts.filter
        notify := by
  simp [Feed.procEntries, sendLoop_eq]

theorem procEntries_hist (keep : Feed.Entry → Bool) (truncN : Nat)
    (notify : Feed.Entry → Bool) (hist₀ : List (Option String))
    (entries : List Feed.Entry) :
    (Feed.procEntries keep truncN notify hist₀ entries).hist =
      truncTo truncN (hist₀ ++
        (((Feed.procEntries keep truncN notify hist₀ entries).attempts.filter
          notify).map Feed.post_id)) := by
  simp [Feed.procEntries, sendLoop_eq]

theorem procEntries_mutated (keep : Feed.Entry → Bool) (truncN : Nat)
    (notify : Feed.Entry → Bool) (hist₀ : List (Option String))
    (entries : List Feed.Entry) :
    (Feed.procEntries keep truncN notify hist₀ entries).mutated =
      !(Feed.procEntries keep truncN notify hist₀ entries).delivered.isEmpty := by
  simp [Feed.procEntries, sendLoop_eq]

theorem procEntries_attempts_sorted (keep : Feed.Entry → Bool) (truncN : Nat)
    (notify : Feed.Entry → Bool) (hist₀ : List (Option String))
    (entries : List Feed.Entry) :
    (Feed.procEntries keep truncN notify hist₀ entries).attempts.Pairwise
      Feed.rle :=
  List.sorted_insertionSort Feed.rle _

theorem procEntries_attempts_mem {keep : Feed.Entry → Bool} {truncN : Nat}
    {notify : Feed.Entry → Bool} {hist₀ : List (Option String)}
    {entries : List Feed.Entry} {e : Feed.Entry}
    (h : e ∈ (Feed.procEntries keep truncN notify hist₀ entries).attempts) :
    e ∈ entries ∧ keep e = true := by
  rw [procEntries_attempts] at h
  have := (List.perm_insertionSort Feed.rle (entries.filter keep)).mem_iff.mp h
  exact ⟨(List.mem_filter.mp this).1, (List.mem_filter.mp this).2⟩


theorem rss_keep_published {hist : List (Option String)} {threshold : Int}
    {e : Feed.Entry} (h : Rss.keep hist threshold e = true) :
    e.published.isSome := by
  cases hp : e.published with
  | none => simp [Rss.keep, hp] at h
  | some d => rfl

theorem yt_keep_published {hist : List (Option String)} {threshold : Int}
    {e : Feed.Entry} (h : Youtube.keep hist threshold e = true) :
    e.published.isSome := by
  cases hp : e.published with
  | none => simp [Youtube.keep, hp] at h
  | some d => rfl

theorem yt_keep_not_short {hist : List (Option String)} {threshold : Int}
    {e : Feed.Entry} (h : Youtube.keep hist threshold e = true) :
    Youtube.is_youtube_short e = false := by
  cases hp : e.published with
  | none => simp [Youtube.keep, hp] at h
  | some d =>
    simp [Youtube.keep, hp] at h
    simp [h.2.1]

theorem mem_crawl_candidates {hist : List String} {items : List Crawl.Item}
    {li : String × Crawl.Item} (h : li ∈ Crawl.candidates hist items) :
    li.2 ∈ items ∧ li.2.link = some li.1 ∧ li.1 ∉ hist ∧ li.1 ≠ "" := by
  obtain ⟨i, hi, hf⟩ := List.mem_filterMap.mp h
  have hmem : i ∈ items :=
    (List.perm_insertionSort Crawl.dsc items).mem_iff.mp hi
  cases hl : i.link with
  | none => simp [hl] at hf
  | some l =>
    by_cases hempty : l = ""
    · simp [hl, hempty] at hf
    · by_cases hh : l ∈ hist
      · simp [hl, hempty, hh] at hf
      · simp [hl, hempty, hh] at hf
        cases hf
        exact ⟨hmem, hl, hh, hempty⟩

theorem crawl_candidates_pairwise (hist : List String)
    (items : List Crawl.Item) :
    (Crawl.candidates hist items).Pairwise
      (fun a b : String × Crawl.Item => Crawl.dsc a.2 b.2) := by
  apply List.Pairwise.filterMap (R := Crawl.dsc)
  · intro a a' hr b hb b' hb'
    have hb2 : b.2 = a := by
      cases hl : a.link with
      | none => simp [hl] at hb
      | some l =>
        by_cases h1 : l = "" <;> by_cases h2 : l ∈ hist <;>
          simp [hl, h1, h2] at hb <;> simp [← hb]
    have hb'2 : b'.2 = a' := by
      cases hl : a'.link with
      | none => simp [hl] at hb'
      | some l =>
        by_cases h1 : l = "" <;> by_cases h2 : l ∈ hist <;>
          simp [hl, h1, h2] at hb' <;> simp [← hb']
    simpa [Crawl.dsc, hb2, hb'2] using hr
  · exact List.sorted_insertionSort Crawl.dsc items

theorem rss_runStep_hist_cases (notify : String → Feed.Entry → Bool)
    (now : Int) (m : Bool) (st : Feed.RunSt) (cfg : Rss.Cfg) (s : String) :
    ((Rss.runStep notify now m st cfg).hist s).length ≤ 50 ∨
      (Rss.runStep notify now m st cfg).hist s = st.hist s := by
  unfold Rss.runStep
  split
  · right; rfl
  · match cfg.fetched with
    | none => right; rfl
    | some entries =>
      simp only [Feed.applyResult]
      by_cases hs : s = cfg.name
      · left
        simp only [hs, if_pos rfl]
        rw [Rss.processEntries, procEntries_hist]
        exact truncTo_length_le _ _
      · right
        simp [hs]

theorem yt_runStep_hist_cases (notify : String → Feed.Entry → Bool)
    (now : Int) (st : Feed.RunSt) (cfg : Youtube.Cfg) (s : String) :
    ((Youtube.runStep notify now st cfg).hist s).length ≤ 20 ∨
      (Youtube.runStep notify now st cfg).hist s = st.hist s := by
  unfold Youtube.runStep
  match cfg.fetched with
  | none => right; rfl
  | some entries =>
    simp only [Feed.applyResult]
    by_cases hs : s = cfg.name
    · left
      simp only [hs, if_pos rfl]
      rw [Youtube.processEntries, procEntries_hist]
      exact truncTo_length_le _ _
    · right
      simp [hs]

theorem runSt_hist_bound_foldl {C : Type} (step : Feed.RunSt → C → Feed.RunSt)
    (N : Nat)
    (hstep : ∀ st c s, ((step st c).hist s).length ≤ N ∨
      (step st c).hist s = st.hist s) :
    ∀ (cs : List C) (st : Feed.RunSt), (∀ s, (st.hist s).length ≤ N) →
      ∀ s, ((cs.foldl step st).hist s).length ≤ N := by
  intro cs
  induction cs with
  | nil => intro st hb s; exact hb s
  | cons c rest ih =>
    intro st hb s
    refine ih (step st c) (fun s' => ?_) s
    rcases hstep st c s' with h | h
    · exact h
    · rw [h]; exact hb s'

theorem rss_foldl_updated (notify : String → Feed.Entry → Bool) (now : Int)
    (m : Bool) :
    ∀ (cfgs : List Rss.Cfg) (st : Feed.RunSt),
      st.updated = !st.deliveries.isEmpty →
      (cfgs.foldl (Rss.runStep notify now m) st).updated =
        !(cfgs.foldl (Rss.runStep notify now m) st).deliveries.isEmpty := by
  intro cfgs
  induction cfgs with
  | nil => intro st h; exact h
  | cons cfg rest ih =>
    intro st h
    refine ih _ ?_
    unfold Rss.runStep
    split
    · exact h
    · match cfg.fetched with
      | none => exact h
      | some entries =>
        simp only [Feed.applyResult, h, Rss.processEntries, procEntries_mutated]
        cases st.deliveries <;>
          cases (Feed.procEntries (Rss.keep (st.hist cfg.name)
            (now - 3 * cfg.check_hours)) 50 (notify cfg.name)
            (st.hist cfg.name) entries).delivered <;> simp

theorem rss_foldl_attempts (notify : String → Feed.Entry → Bool) (now : Int)
    (m : Bool) :
    ∀ (cfgs : List Rss.Cfg) (st : Feed.RunSt),
      (cfgs.foldl (Rss.runStep notify now m) st).attempts =
        st.attempts ++ Rss.newAttempts notify now m st.hist cfgs := by
  intro cfgs
  induction cfgs with
  | nil => intro st; simp [Rss.newAttempts]
  | cons cfg rest ih =>
    intro st
    simp only [List.foldl_cons, ih, Rss.newAttempts]
    unfold Rss.runStep
    split
    · rfl
    · match hf : cfg.fetched with
      | none => rfl
      | some entries =>
        simp [Feed.applyResult, List.append_assoc]

theorem rss_newAttempts_congr (notify : String → Feed.Entry → Bool)
    (now : Int) (m : Bool) :
    ∀ (cfgs : List Rss.Cfg) (h₁ h₂ : String → List (Option String)),
      (∀ c ∈ cfgs, h₁ c.name = h₂ c.name) →
      Rss.newAttempts notify now m h₁ cfgs =
        Rss.newAttempts notify now m h₂ cfgs := by
  intro cfgs
  induction cfgs with
  | nil => intro h₁ h₂ _; rfl
  | cons cfg rest ih =>
    intro h₁ h₂ hagree
    have hname : h₁ cfg.name = h₂ cfg.name :=
      hagree cfg (List.mem_cons_self _ _)
    have htail : ∀ c ∈ rest, h₁ c.name = h₂ c.name :=
      fun c hc => hagree c (List.mem_cons_of_mem _ hc)
    cases hf : cfg.fetched with
    | none =>
      simp only [Rss.newAttempts, hf]
      split
      · exact ih h₁ h₂ htail
      · exact ih h₁ h₂ htail
    | some entries =>
      simp only [Rss.newAttempts, hf]
      split
      · exact ih h₁ h₂ htail
      · rw [hname]
        refine congrArg _ ?_
        refine ih _ _ fun c hc => ?_
        by_cases hceq : c.name = cfg.name
        · simp [hceq]
        · simp only [if_neg hceq]
          exact htail c hc

theorem rss_newAttempts_notify (now : Int) (m : Bool) :
    ∀ (cfgs : List Rss.Cfg) (n₁ n₂ : String → Feed.Entry → Bool)
      (h : String → List (Option String)),
      (cfgs.map Rss.Cfg.name).Nodup →
      Rss.newAttempts n₁ now m h cfgs = Rss.newAttempts n₂ now m h cfgs := by
  intro cfgs
  induction cfgs with
  | nil => intro n₁ n₂ h _; rfl
  | cons cfg rest ih =>
    intro n₁ n₂ h hnd
    have hnd' : (rest.map Rss.Cfg.name).Nodup :=
      (List.nodup_cons.mp hnd).2
    have hnotmem : cfg.name ∉ rest.map Rss.Cfg.name :=
      (List.nodup_cons.mp hnd).1
    cases hf : cfg.fetched with
    | none =>
      simp only [Rss.newAttempts, hf]
      split
      · exact ih n₁ n₂ h hnd'
      · exact ih n₁ n₂ h hnd'
    | some entries =>
      simp only [Rss.newAttempts, hf]
      split
      · exact ih n₁ n₂ h hnd'
      · have hatt :
            (Rss.processEntries (n₁ cfg.name) (h cfg.name)
              (now - 3 * cfg.check_hours) entries).attempts =
            (Rss.processEntries (n₂ cfg.name) (h cfg.name)
              (now - 3 * cfg.check_hours) entries).attempts := by
          rw [Rss.processEntries, Rss.processEntries,
            procEntries_attempts, procEntries_attempts]
        rw [hatt]
        refine congrArg _ ?_
        calc Rss.newAttempts n₁ now m
              (fun n => if n = cfg.name then
                (Rss.processEntries (n₁ cfg.name) (h cfg.name)
                  (now - 3 * cfg.check_hours) entries).hist
                else h n) rest
            = Rss.newAttempts n₂ now m
              (fun n => if n = cfg.name then
                (Rss.processEntries (n₁ cfg.name) (h cfg.name)
                  (now - 3 * cfg.check_hours) entries).hist
                else h n) rest := ih n₁ n₂ _ hnd'
          _ = Rss.newAttempts n₂ now m
              (fun n => if n = cfg.name then
                (Rss.processEntries (n₂ cfg.name) (h cfg.name)
                  (now - 3 * cfg.check_hours) entries).hist
                else h n) rest := by
              refine rss_newAttempts_congr n₂ now m rest _ _ fun c hc => ?_
              have hne : c.name ≠ cfg.name := by
                intro heq
                exact hnotmem (heq ▸ List.mem_map_of_mem Rss.Cfg.name hc)
              simp [hne]


theorem arxiv_paperStep_disj (kwMatch : String → String → Bool)
    (notify : Arxiv.Paper → Bool) (keywords : List String) (st : Arxiv.St)
    (p : Arxiv.Paper) :
    Arxiv.paperStep kwMatch notify keywords st p = st ∨
    Arxiv.paperStep kwMatch notify keywords st p =
      { st with hist := st.hist ++ [p.short_id],
                new_history_items := st.new_history_items ++ [p.short_id] } ∨
    (¬ Arxiv.MAX_NOTIFICATIONS_PER_RUN ≤ st.notifications_sent ∧
      Arxiv.paperStep kwMatch notify keywords st p =
        { st with notifications_sent := st.notifications_sent + 1,
                  hist := st.hist ++ [p.short_id],
                  new_history_items := st.new_history_items ++ [p.short_id],
                  attempts := st.attempts ++ [p],
                  delivered := st.delivered ++ [p] }) ∨
    Arxiv.paperStep kwMatch notify keywords st p =
      { st with attempts := st.attempts ++ [p] } := by
  by_cases h1 : Arxiv.MAX_NOTIFICATIONS_PER_RUN ≤ st.notifications_sent
  · left; simp [Arxiv.paperStep, h1]
  by_cases h2 : p.short_id ∈ st.hist
  · left; simp [Arxiv.paperStep, h1, h2]
  by_cases h3 : (!keywords.isEmpty &&
      (keywords.filter fun k =>
        kwMatch (p.title ++ " " ++ p.summary) k).isEmpty) = true
  · right; left; simp [Arxiv.paperStep, h1, h2, h3]
  by_cases h4 : notify p = true
  · right; right; left
    exact ⟨h1, by simp [Arxiv.paperStep, h1, h2, h3, h4]⟩
  · right; right; right
    simp [Arxiv.paperStep, h1, h2, h3, h4]

theorem arxiv_paperStep_inv (kwMatch : String → String → Bool)
    (notify : Arxiv.Paper → Bool) (keywords : List String) (st : Arxiv.St)
    (p : Arxiv.Paper)
    (h : st.notifications_sent ≤ Arxiv.MAX_NOTIFICATIONS_PER_RUN ∧
      st.delivered.length = st.notifications_sent) :
    (Arxiv.paperStep kwMatch notify keywords st p).notifications_sent ≤
        Arxiv.MAX_NOTIFICATIONS_PER_RUN ∧
      (Arxiv.paperStep kwMatch notify keywords st p).delivered.length =
        (Arxiv.paperStep kwMatch notify keywords st p).notifications_sent := by
  rcases arxiv_paperStep_disj kwMatch notify keywords st p with
    hs | hs | ⟨hlt, hs⟩ | hs
  · rw [hs]; exact h
  · rw [hs]; exact h
  · rw [hs]
    refine ⟨?_, ?_⟩
    · simp only []
      omega
    · simp [h.2]
  · rw [hs]; exact h

theorem arxiv_papers_foldl_inv (kwMatch : String → String → Bool)
    (notify : Arxiv.Paper → Bool) (keywords : List String)
    (papers : List Arxiv.Paper) :
    ∀ st : Arxiv.St,
      st.notifications_sent ≤ Arxiv.MAX_NOTIFICATIONS_PER_RUN ∧
        st.delivered.length = st.notifications_sent →
      (papers.foldl (Arxiv.paperStep kwMatch notify keywords)
          st).notifications_sent ≤ Arxiv.MAX_NOTIFICATIONS_PER_RUN ∧
        (papers.foldl (Arxiv.paperStep kwMatch notify keywords)
          st).delivered.length =
        (papers.foldl (Arxiv.paperStep kwMatch notify keywords)
          st).notifications_sent := by
  induction papers with
  | nil => intro st h; exact h
  | cons p rest ih =>
    intro st h
    exact ih _ (arxiv_paperStep_inv kwMatch notify keywords st p h)

theorem arxiv_searchStep_inv (kwMatch : String → String → Bool)
    (notify : Arxiv.Paper → Bool) (st : Arxiv.St) (s : Arxiv.Search)
    (h : st.notifications_sent ≤ Arxiv.MAX_NOTIFICATIONS_PER_RUN ∧
      st.delivered.length = st.notifications_sent) :
    (Arxiv.searchStep kwMatch notify st s).notifications_sent ≤
        Arxiv.MAX_NOTIFICATIONS_PER_RUN ∧
      (Arxiv.searchStep kwMatch notify st s).delivered.length =
        (Arxiv.searchStep kwMatch notify st s).notifications_sent := by
  unfold Arxiv.searchStep
  split
  · exact h
  · cases s.fetched with
    | none => exact h
    | some results =>
      exact arxiv_papers_foldl_inv kwMatch notify s.keywords results.reverse st h

theorem arxiv_run_inv (kwMatch : String → String → Bool)
    (notify : Arxiv.Paper → Bool) (hist₀ : List String)
    (searches : List Arxiv.Search) :
    (Arxiv.runSearches kwMatch notify hist₀ searches).notifications_sent ≤
        Arxiv.MAX_NOTIFICATIONS_PER_RUN ∧
      (Arxiv.runSearches kwMatch notify hist₀ searches).delivered.length =
        (Arxiv.runSearches kwMatch notify hist₀ searches).notifications_sent := by
  unfold Arxiv.runSearches
  have main : ∀ (ss : List Arxiv.Search) (st : Arxiv.St),
      st.notifications_sent ≤ Arxiv.MAX_NOTIFICATIONS_PER_RUN ∧
        st.delivered.length = st.notifications_sent →
      (ss.foldl (Arxiv.searchStep kwMatch notify) st).notifications_sent ≤
          Arxiv.MAX_NOTIFICATIONS_PER_RUN ∧
        (ss.foldl (Arxiv.searchStep kwMatch notify) st).delivered.length =
          (ss.foldl (Arxiv.searchStep kwMatch notify) st).notifications_sent := by
    intro ss
    induction ss with
    | nil => intro st h; exact h
    | cons s rest ih =>
      intro st h
      exact ih _ (arxiv_searchStep_inv kwMatch notify st s h)
  exact main searches _ ⟨by simp [Arxiv.MAX_NOTIFICATIONS_PER_RUN], rfl⟩

theorem arxiv_paperStep_exhausted (kwMatch : String → String → Bool)
    (notify : Arxiv.Paper → Bool) (keywords : List String) (st : Arxiv.St)
    (p : Arxiv.Paper)
    (h : Arxiv.MAX_NOTIFICATIONS_PER_RUN ≤ st.notifications_sent) :
    Arxiv.paperStep kwMatch notify keywords st p = st := by
  unfold Arxiv.paperStep
  simp [h]

theorem arxiv_searchStep_exhausted (kwMatch : String → String → Bool)
    (notify : Arxiv.Paper → Bool) (st : Arxiv.St) (s : Arxiv.Search)
    (h : Arxiv.MAX_NOTIFICATIONS_PER_RUN ≤ st.notifications_sent) :
    Arxiv.searchStep kwMatch notify st s = st := by
  unfold Arxiv.searchStep
  simp [h]

theorem arxiv_papers_attempts_sublist (kwMatch : String → String → Bool)
    (notify : Arxiv.Paper → Bool) (keywords : List String)
    (papers : List Arxiv.Paper) :
    ∀ st : Arxiv.St, ∃ l', l'.Sublist papers ∧
      (papers.foldl (Arxiv.paperStep kwMatch notify keywords) st).attempts =
        st.attempts ++ l' := by
  induction papers with
  | nil => intro st; exact ⟨[], List.Sublist.refl _, by simp⟩
  | cons p rest ih =>
    intro st
    obtain ⟨l', hsub, heq⟩ := ih (Arxiv.paperStep kwMatch notify keywords st p)
    have hstep : (Arxiv.paperStep kwMatch notify keywords st p).attempts =
        st.attempts ∨
        (Arxiv.paperStep kwMatch notify keywords st p).attempts =
          st.attempts ++ [p] := by
      rcases arxiv_paperStep_disj kwMatch notify keywords st p with
        hs | hs | ⟨_, hs⟩ | hs
      · rw [hs]; exact Or.inl rfl
      · rw [hs]; exact Or.inl rfl
      · rw [hs]; exact Or.inr rfl
      · rw [hs]; exact Or.inr rfl
    rcases hstep with hstep | hstep
    · exact ⟨l', hsub.cons _, by rw [List.foldl_cons, heq, hstep]⟩
    · refine ⟨p :: l', hsub.cons₂ _, ?_⟩
      rw [List.foldl_cons, heq, hstep]
      simp

theorem crawl_candidates_of_isEmpty {hist₀ : List String}
    {items : List Crawl.Item} (h : items.isEmpty = true) :
    Crawl.candidates hist₀ items = [] := by
  rw [List.isEmpty_iff] at h
  subst h
  rfl

theorem crawl_processItems_anatomy (notify : Crawl.Item → Bool)
    (hist₀ : List String) (items : List Crawl.Item) :
    (Crawl.processItems notify hist₀ items =
        ⟨[], [], hist₀, false, []⟩ ∧ Crawl.candidates hist₀ items = []) ∨
    (Crawl.candidates hist₀ items ≠ [] ∧
      Crawl.processItems notify hist₀ items =
        (let ni := Crawl.candidates hist₀ items
         let pre := if 3 < ni.length then
             (ni.take 1, hist₀ ++ (ni.drop 1).map Prod.fst, true,
               (ni.drop 1).map Prod.fst)
           else (ni, hist₀, false, [])
         let del := pre.1.reverse.filter fun li => notify li.2
         ⟨pre.1.reverse, del, truncTo 50 (pre.2.1 ++ del.map Prod.fst),
           pre.2.2.1 || !del.isEmpty, pre.2.2.2⟩)) := by
  by_cases h1 : items.isEmpty = true
  · left
    exact ⟨by simp [Crawl.processItems, h1], crawl_candidates_of_isEmpty h1⟩
  by_cases h2 : (Crawl.candidates hist₀ items).isEmpty = true
  · left
    refine ⟨?_, List.isEmpty_iff.mp h2⟩
    simp [Crawl.processItems, h1, h2]
  · right
    have h1' : items.isEmpty = false := by
      revert h1; cases items.isEmpty <;> simp
    have h2' : (Crawl.candidates hist₀ items).isEmpty = false := by
      revert h2; cases (Crawl.candidates hist₀ items).isEmpty <;> simp
    refine ⟨fun hc => h2 (by simp [hc]), ?_⟩
    by_cases h3 : 3 < (Crawl.candidates hist₀ items).length
    · simp [Crawl.processItems, h1', h2', h3, sendLoop_eq]
    · simp [Crawl.processItems, h1', h2', h3, sendLoop_eq]

theorem reverse_take_one {α : Type} (l : List α) :
    (l.take 1).reverse = l.take 1 := by
  cases l with
  | nil => rfl
  | cons a t => simp

theorem crawl_candidates_head_max {hist₀ : List String}
    {items : List Crawl.Item} {x y : String × Crawl.Item}
    (hx : x ∈ (Crawl.candidates hist₀ items).take 1)
    (hy : y ∈ Crawl.candidates hist₀ items) :
    Crawl.parse_date_safe y.2.published ≤
      Crawl.parse_date_safe x.2.published := by
  have hp := crawl_candidates_pairwise hist₀ items
  cases hni : Crawl.candidates hist₀ items with
  | nil => rw [hni] at hy; cases hy
  | cons a t =>
    rw [hni] at hx hy hp
    simp only [List.take_succ_cons, List.take_zero, List.mem_singleton] at hx
    subst hx
    rcases List.mem_cons.mp hy with hy | hy
    · subst hy; exact le_refl _
    · exact (List.pairwise_cons.mp hp).1 y hy

theorem crawl_processItems_mutated (notify : Crawl.Item → Bool)
    (hist₀ : List String) (items : List Crawl.Item) :
    (Crawl.processItems notify hist₀ items).mutated =
      !((Crawl.processItems notify hist₀ items).delivered.isEmpty &&
        (Crawl.processItems notify hist₀ items).suppressed.isEmpty) := by
  rcases crawl_processItems_anatomy notify hist₀ items with
    ⟨heq, _⟩ | ⟨hne, heq⟩
  · rw [heq]
    rfl
  · rw [heq]
    simp only []
    split
    · rename_i h3
      have hsup : ((Crawl.candidates hist₀ items).drop 1).map
          (Prod.fst : String × Crawl.Item → String) ≠ [] := by
        intro hnil
        have hlen := congrArg List.length hnil
        simp only [List.length_map, List.length_drop, List.length_nil] at hlen
        omega
      have hsupE : (((Crawl.candidates hist₀ items).drop 1).map
          (Prod.fst : String × Crawl.Item → String)).isEmpty = false := by
        cases hc : ((Crawl.candidates hist₀ items).drop 1).map
            (Prod.fst : String × Crawl.Item → String) with
        | nil => exact absurd hc hsup
        | cons a t => rfl
      simp only [hsupE, Bool.and_false, Bool.not_false, Bool.true_or]
    · simp

theorem crawl_foldl_updated (notify : String → Crawl.Item → Bool) :
    ∀ (cfgs : List Crawl.Cfg) (st : Crawl.RunSt),
      st.updated = !(st.deliveries.isEmpty && st.suppressed.isEmpty) →
      (cfgs.foldl (Crawl.runStep notify) st).updated =
        !((cfgs.foldl (Crawl.runStep notify) st).deliveries.isEmpty &&
          (cfgs.foldl (Crawl.runStep notify) st).suppressed.isEmpty) := by
  intro cfgs
  induction cfgs with
  | nil => intro st h; exact h
  | cons cfg rest ih =>
    intro st h
    refine ih _ ?_
    unfold Crawl.runStep
    match cfg.fetched with
    | none => exact h
    | some items =>
      simp only [h, crawl_processItems_mutated]
      cases st.deliveries <;> cases st.suppressed <;>
        cases (Crawl.processItems (notify cfg.name) (st.hist cfg.name)
          items).delivered <;>
        cases (Crawl.processItems (notify cfg.name) (st.hist cfg.name)
          items).suppressed <;> simp

theorem yt_foldl_updated (notify : String → Feed.Entry → Bool) (now : Int) :
    ∀ (cfgs : List Youtube.Cfg) (st : Feed.RunSt),
      st.updated = !st.deliveries.isEmpty →
      (cfgs.foldl (Youtube.runStep notify now) st).updated =
        !(cfgs.foldl (Youtube.runStep notify now) st).deliveries.isEmpty := by
  intro cfgs
  induction cfgs with
  | nil => intro st h; exact h
  | cons cfg rest ih =>
    intro st h
    refine ih _ ?_
    unfold Youtube.runStep
    match cfg.fetched with
    | none => exact h
    | some entries =>
      simp only [Feed.applyResult, h, Youtube.processEntries,
        procEntries_mutated]
      cases st.deliveries <;>
        cases (Feed.procEntries (Youtube.keep (st.hist cfg.name)
          (now - 30)) 20 (notify cfg.name) (st.hist cfg.name)
          entries).delivered <;> simp

/-! ## Claim theorems -/

/-- Claim C7, counterexample: loading a corrupt history file does not
yield an empty history in the rss and crawl checkers — `json.load` raises
an uncaught error, so the run aborts instead of proceeding. -/
theorem c7_counterexample :
    Rss.load_history FileState.corrupt = Except.error () ∧
      Crawl.load_history FileState.corrupt = Except.error () :=
  ⟨rfl, rfl⟩

/-- Claim C7, amended: only the arxiv checker's `load_history` never
aborts — a missing file, undecodable content and non-list content all load
as the empty history. The rss and crawl checkers return an empty history
only for a missing file and propagate the decode error on corrupt
content. -/
theorem c7_load_history_robustness :
    (Arxiv.load_history FileState.absent = [] ∧
      Arxiv.load_history FileState.corrupt = [] ∧
      Arxiv.load_history (FileState.valid none) = [] ∧
      ∀ l, Arxiv.load_history (FileState.valid (some l)) = l) ∧
    (Rss.load_history FileState.absent = Except.ok [] ∧
      ∀ d, Rss.load_history (FileState.valid d) = Except.ok d) ∧
    (Crawl.load_history FileState.absent = Except.ok [] ∧
      ∀ d, Crawl.load_history (FileState.valid d) = Except.ok d) :=
  ⟨⟨rfl, rfl, rfl, fun _ => rfl⟩, ⟨rfl, fun _ => rfl⟩, rfl, fun _ => rfl⟩

/-- Claim C6, counterexample: the arxiv checker rewrites the history file
even on a run with no history mutation at all — over zero searches no item
is delivered and nothing is added to history, yet `save_history` runs and
the file is written. -/
theorem c6_counterexample :
    (Arxiv.check_arxiv (fun _ _ => false) (fun _ => false)
        FileState.absent []).savedFile = some [] ∧
      (Arxiv.check_arxiv (fun _ _ => false) (fun _ => false)
        FileState.absent []).st.new_history_items = [] ∧
      (Arxiv.check_arxiv (fun _ _ => false) (fun _ => false)
        FileState.absent []).st.delivered = [] :=
  ⟨rfl, rfl, rfl⟩

/-- Claim C6, amended: the dict-store checkers write the history file
back exactly when at least one in-memory mutation was recorded — for the
rss and youtube checkers a successful delivery, for the crawl checker a
successful delivery or a batch of flood-suppressed links (recorded even
when the one send then fails); a mutation-free run leaves the file
untouched. The arxiv checker instead writes its history file on every run
that found its configuration, mutation or not. -/
theorem c6_write_gating (notify : String → Feed.Entry → Bool) (now : Int)
    (m : Bool) (hist₀ : String → List (Option String)) (cfgs : List Rss.Cfg)
    (ynotify : String → Feed.Entry → Bool) (ynow : Int)
    (yhist₀ : String → List (Option String)) (ycfgs : List Youtube.Cfg)
    (cnotify : String → Crawl.Item → Bool)
    (chist₀ : String → List String) (ccfgs : List Crawl.Cfg)
    (kwMatch : String → String → Bool) (anotify : Arxiv.Paper → Bool)
    (file : FileState (Option (List String)))
    (searches : List Arxiv.Search) :
    (Rss.check_feeds notify now m hist₀ cfgs).2 =
      !(Rss.check_feeds notify now m hist₀ cfgs).1.deliveries.isEmpty ∧
    (Youtube.check_feeds ynotify ynow yhist₀ ycfgs).2 =
      !(Youtube.check_feeds ynotify ynow yhist₀
        ycfgs).1.deliveries.isEmpty ∧
    (Crawl.check_crawlers cnotify chist₀ ccfgs).2 =
      !((Crawl.check_crawlers cnotify chist₀ ccfgs).1.deliveries.isEmpty &&
        (Crawl.check_crawlers cnotify chist₀ ccfgs).1.suppressed.isEmpty) ∧
    (Arxiv.check_arxiv kwMatch anotify file searches).savedFile.isSome =
      true := by
  refine ⟨?_, ?_, ?_, rfl⟩
  · exact rss_foldl_updated notify now m cfgs ⟨hist₀, false, [], []⟩ rfl
  · exact yt_foldl_updated ynotify ynow ycfgs ⟨yhist₀, false, [], []⟩ rfl
  · exact crawl_foldl_updated cnotify ccfgs ⟨chist₀, false, [], []⟩ rfl

/-- Claim C8, counterexample: the rss checker does not drop an entry that
carries neither id nor link — one fresh dated entry with no identity is
delivered, and `none` (JSON `null`) is appended to the feed's history. -/
theorem c8_counterexample :
    (Rss.processEntries (fun _ => true) [] 0
        [⟨none, none, some 5, "t"⟩]).delivered.length = 1 ∧
      (Rss.processEntries (fun _ => true) [] 0
        [⟨none, none, some 5, "t"⟩]).hist = [none] :=
  ⟨rfl, rfl⟩

/-- Claim C8, amended: the crawl checker drops items with no nonempty
link: every attempted item carries its link as identity, and every history
entry after processing a source is either pre-existing or the link of some
fetched item, so an identity-less item never contributes. The rss checker
instead processes entries lacking both id and link under the `none`
identity (`post_id` is `none` exactly for those). -/
theorem c8_identityless (notify : Crawl.Item → Bool) (hist₀ : List String)
    (items : List Crawl.Item) :
    (∀ li ∈ (Crawl.processItems notify hist₀ items).attempts,
        li.2.link = some li.1 ∧ li.2 ∈ items) ∧
    (∀ s ∈ (Crawl.processItems notify hist₀ items).hist,
        s ∈ hist₀ ∨ some s ∈ items.map Crawl.Item.link) ∧
    (∀ e : Feed.Entry, Feed.post_id e = none ↔
        e.id = none ∧ e.link = none) := by
  have hcand : ∀ li ∈ Crawl.candidates hist₀ items,
      li.2.link = some li.1 ∧ li.2 ∈ items := by
    intro li hli
    obtain ⟨hm, hl, _, _⟩ := mem_crawl_candidates hli
    exact ⟨hl, hm⟩
  have hcand_link : ∀ li ∈ Crawl.candidates hist₀ items,
      some li.1 ∈ items.map Crawl.Item.link := by
    intro li hli
    obtain ⟨hl, hm⟩ := hcand li hli
    exact List.mem_map.mpr ⟨li.2, hm, hl⟩
  refine ⟨?_, ?_, ?_⟩
  · intro li hli
    rcases crawl_processItems_anatomy notify hist₀ items with
      ⟨heq, _⟩ | ⟨_, heq⟩
    · rw [heq] at hli; cases hli
    · rw [heq] at hli
      simp only [List.mem_reverse] at hli
      split at hli
      · exact hcand li (List.mem_of_mem_take hli)
      · exact hcand li hli
  · intro s hs
    rcases crawl_processItems_anatomy notify hist₀ items with
      ⟨heq, _⟩ | ⟨_, heq⟩
    · rw [heq] at hs; exact Or.inl hs
    · rw [heq] at hs
      have hs' := mem_of_mem_truncTo hs
      rcases List.mem_append.mp hs' with hs' | hs'
      · split at hs'
        · rcases List.mem_append.mp hs' with hs' | hs'
          · exact Or.inl hs'
          · obtain ⟨li, hli, hfst⟩ := List.mem_map.mp hs'
            refine Or.inr ?_
            rw [← hfst]
            exact hcand_link li (List.mem_of_mem_drop hli)
        · exact Or.inl hs'
      · obtain ⟨li, hli, hfst⟩ := List.mem_map.mp hs'
        have hli' : li ∈ Crawl.candidates hist₀ items := by
          have := List.mem_reverse.mp (List.mem_of_mem_filter hli)
          split at this
          · exact List.mem_of_mem_take this
          · exact this
        refine Or.inr ?_
        rw [← hfst]
        exact hcand_link li hli'
  · intro e
    cases hid : e.id <;> cases hl : e.link <;>
      simp [Feed.post_id, Option.orElse, hid, hl]

/-- Claim C8, amended-theorem witness at a concrete input. -/
theorem c8_identityless_witness :
    ((("l1", (⟨some "l1", some 1, "a"⟩ : Crawl.Item)) :
        String × Crawl.Item).2.link = some "l1" ∧
      (⟨some "l1", some 1, "a"⟩ : Crawl.Item) ∈
        [(⟨none, some 2, "no-link"⟩ : Crawl.Item), ⟨some "l1", some 1, "a"⟩]) ∧
    ("l1" ∈ ([] : List String) ∨ some "l1" ∈
      [(⟨none, some 2, "no-link"⟩ : Crawl.Item),
        (⟨some "l1", some 1, "a"⟩ : Crawl.Item)].map Crawl.Item.link) := by
  have h := c8_identityless (fun _ => true) []
    [⟨none, some 2, "no-link"⟩, ⟨some "l1", some 1, "a"⟩]
  refine ⟨h.1 ("l1", ⟨some "l1", some 1, "a"⟩) (by decide), ?_⟩
  exact h.2.1 "l1" (by decide)

/-- Claim C5, counterexample: a fetched entry with no parseable timestamp
is not recorded as seen — the rss checker skips it entirely, the history
stays empty, and the item will be re-examined on every later run. -/
theorem c5_counterexample :
    (Rss.processEntries (fun _ => true) [] 0
        [⟨some "x", none, none, "t"⟩]).attempts = [] ∧
      (Rss.processEntries (fun _ => true) [] 0
        [⟨some "x", none, none, "t"⟩]).hist = [] :=
  ⟨rfl, rfl⟩

/-- Claim C5, amended: entries with unknown timestamps are excluded from
delivery consideration in the rss and youtube checkers, but their
identities are NOT recorded: every attempted entry carries a date and
history additions come only from successful attempts, so a fresh
unknown-dated identity stays out of history and is reconsidered next run.
The crawl checker instead coerces an unknown date to the epoch. -/
theorem c5_unknown_dates (notify : Feed.Entry → Bool)
    (hist₀ : List (Option String)) (threshold : Int)
    (entries : List Feed.Entry) :
    (∀ e ∈ (Rss.processEntries notify hist₀ threshold entries).attempts,
        e.published.isSome) ∧
    (∀ e ∈ (Youtube.processEntries notify hist₀ threshold entries).attempts,
        e.published.isSome) ∧
    (∀ e : Feed.Entry, e.published = none → Feed.post_id e ∉ hist₀ →
      (∀ e' ∈ entries, Feed.post_id e' = Feed.post_id e →
        e'.published = none) →
      Feed.post_id e ∉
        (Rss.processEntries notify hist₀ threshold entries).hist) ∧
    Crawl.parse_date_safe none = 0 := by
  refine ⟨?_, ?_, ?_, rfl⟩
  · intro e he
    exact rss_keep_published (procEntries_attempts_mem he).2
  · intro e he
    exact yt_keep_published (procEntries_attempts_mem he).2
  · intro e hpub hfresh hsame hmem
    rw [Rss.processEntries, procEntries_hist] at hmem
    rcases List.mem_append.mp (mem_of_mem_truncTo hmem) with hmem | hmem
    · exact hfresh hmem
    · obtain ⟨e', he', hid⟩ := List.mem_map.mp hmem
      have hatt := List.mem_of_mem_filter he'
      have hsome : e'.published.isSome :=
        rss_keep_published (procEntries_attempts_mem hatt).2
      have hentries : e' ∈ entries := (procEntries_attempts_mem hatt).1
      rw [hsame e' hentries hid] at hsome
      cases hsome

/-- Claim C5, amended-theorem witness at a concrete input. -/
theorem c5_unknown_dates_witness :
    Feed.post_id ⟨some "x", none, none, "t"⟩ ∉
      (Rss.processEntries (fun _ => true) [] 0
        [⟨some "x", none, none, "t"⟩]).hist :=
  (c5_unknown_dates (fun _ => true) [] 0
    [⟨some "x", none, none, "t"⟩]).2.2.1
    ⟨some "x", none, none, "t"⟩ rfl (by decide) (by decide)

/-- Claim C3: across all searches of one arxiv run, the number of
successful deliveries never exceeds `MAX_NOTIFICATIONS_PER_RUN` (5), and
once the budget is exhausted both the search loop and the paper loop leave
the state untouched — nothing further is delivered and nothing further is
marked seen. -/
theorem c3_run_budget (kwMatch : String → String → Bool)
    (notify : Arxiv.Paper → Bool) (hist₀ : List String)
    (searches : List Arxiv.Search) :
    (Arxiv.runSearches kwMatch notify hist₀ searches).delivered.length ≤
      Arxiv.MAX_NOTIFICATIONS_PER_RUN ∧
    (∀ (st : Arxiv.St) (s : Arxiv.Search),
      Arxiv.MAX_NOTIFICATIONS_PER_RUN ≤ st.notifications_sent →
      Arxiv.searchStep kwMatch notify st s = st) ∧
    (∀ (st : Arxiv.St) (keywords : List String) (p : Arxiv.Paper),
      Arxiv.MAX_NOTIFICATIONS_PER_RUN ≤ st.notifications_sent →
      Arxiv.paperStep kwMatch notify keywords st p = st) := by
  refine ⟨?_, fun st s h => arxiv_searchStep_exhausted kwMatch notify st s h,
    fun st kw p h => arxiv_paperStep_exhausted kwMatch notify kw st p h⟩
  have h := arxiv_run_inv kwMatch notify hist₀ searches
  omega

/-- Claim C3 witness at a concrete input: a run over six matching fresh
papers delivers exactly the budget of 5, and an exhausted state absorbs a
further search. -/
theorem c3_run_budget_witness :
    (Arxiv.runSearches (fun _ _ => false) (fun _ => true) []
        [⟨[], some [⟨"p1", "", "", 1⟩, ⟨"p2", "", "", 2⟩, ⟨"p3", "", "", 3⟩,
          ⟨"p4", "", "", 4⟩, ⟨"p5", "", "", 5⟩,
          ⟨"p6", "", "", 6⟩]⟩]).delivered.length ≤
      Arxiv.MAX_NOTIFICATIONS_PER_RUN ∧
    Arxiv.searchStep (fun _ _ => false) (fun _ => true)
        ⟨[], [], 5, [], []⟩ ⟨[], some [⟨"p7", "", "", 7⟩]⟩ =
      ⟨[], [], 5, [], []⟩ :=
  ⟨(c3_run_budget (fun _ _ => false) (fun _ => true) [] _).1,
    (c3_run_budget (fun _ _ => false) (fun _ => true) [] []).2.1
      ⟨[], [], 5, [], []⟩ ⟨[], some [⟨"p7", "", "", 7⟩]⟩ (by decide)⟩

/-- Claim C4: a failed delivery leaves no trace and stops nothing — within
a feed the attempted sequence is the full sorted candidate list whatever
the notifier answers, the history gains exactly the identities of the
successful attempts (failed ones stay out and remain candidates next run),
a whole rss run attempts the same items under any two notifiers (for
distinct feed names), and the arxiv budget counter equals the number of
successful deliveries, so failures never consume budget. -/
theorem c4_failed_delivery (notify : Feed.Entry → Bool)
    (hist₀ : List (Option String)) (threshold : Int)
    (entries : List Feed.Entry) (n₁ n₂ : String → Feed.Entry → Bool)
    (now : Int) (m : Bool) (store : String → List (Option String))
    (cfgs : List Rss.Cfg) (kwMatch : String → String → Bool)
    (anotify : Arxiv.Paper → Bool) (ahist : List String)
    (searches : List Arxiv.Search) :
    (Rss.processEntries notify hist₀ threshold entries).attempts =
      Rss.entries_to_send hist₀ threshold entries ∧
    (Rss.processEntries notify hist₀ threshold entries).hist =
      truncTo 50 (hist₀ ++
        (((Rss.entries_to_send hist₀ threshold entries).filter notify).map
          Feed.post_id)) ∧
    ((cfgs.map Rss.Cfg.name).Nodup →
      (Rss.check_feeds n₁ now m store cfgs).1.attempts =
        (Rss.check_feeds n₂ now m store cfgs).1.attempts) ∧
    (Arxiv.runSearches kwMatch anotify ahist searches).notifications_sent =
      (Arxiv.runSearches kwMatch anotify ahist searches).delivered.length := by
  refine ⟨rfl, procEntries_hist _ _ _ _ _, ?_, ?_⟩
  · intro hnd
    have h1 : (Rss.check_feeds n₁ now m store cfgs).1.attempts =
        Rss.newAttempts n₁ now m store cfgs := by
      show (cfgs.foldl (Rss.runStep n₁ now m)
        ⟨store, false, [], []⟩).attempts = _
      rw [rss_foldl_attempts]
      rfl
    have h2 : (Rss.check_feeds n₂ now m store cfgs).1.attempts =
        Rss.newAttempts n₂ now m store cfgs := by
      show (cfgs.foldl (Rss.runStep n₂ now m)
        ⟨store, false, [], []⟩).attempts = _
      rw [rss_foldl_attempts]
      rfl
    rw [h1, h2]
    exact rss_newAttempts_notify now m cfgs n₁ n₂ store hnd
  · exact (arxiv_run_inv kwMatch anotify ahist searches).2.symm

/-- Claim C4 witness at a concrete input: an all-failing notifier and an
all-succeeding notifier attempt exactly the same items in an rss run over
one feed. -/
theorem c4_failed_delivery_witness :
    (Rss.check_feeds (fun _ _ => false) 100 false (fun _ => [])
        [⟨"a", 1, some [⟨some "x", none, some 99, "t"⟩]⟩]).1.attempts =
      (Rss.check_feeds (fun _ _ => true) 100 false (fun _ => [])
        [⟨"a", 1, some [⟨some "x", none, some 99, "t"⟩]⟩]).1.attempts :=
  (c4_failed_delivery (fun _ => true) [] 0 [] (fun _ _ => false)
    (fun _ _ => true) 100 false (fun _ => [])
    [⟨"a", 1, some [⟨some "x", none, some 99, "t"⟩]⟩]
    (fun _ _ => false) (fun _ => true) [] []).2.2.1 (by decide)

/-- Claim C2, counterexample: the arxiv checker only reverses the order
the adapter returned — with an adapter returning two papers in ascending
date order, the two delivery attempts are issued with decreasing
timestamps, refuting order-independence from the adapter. -/
theorem c2_counterexample :
    (Arxiv.runSearches (fun _ _ => false) (fun _ => true) []
        [⟨[], some [⟨"p1", "", "", 1⟩, ⟨"p2", "", "", 2⟩]⟩]).attempts.map
      Arxiv.Paper.published = [2, 1] ∧
    ¬ List.Sorted (fun a b : Arxiv.Paper => a.published ≤ b.published)
      (Arxiv.runSearches (fun _ _ => false) (fun _ => true) []
        [⟨[], some [⟨"p1", "", "", 1⟩, ⟨"p2", "", "", 2⟩]⟩]).attempts :=
  ⟨rfl, by decide⟩

/-- Claim C2, amended: the rss, youtube and crawl checkers do issue their
delivery attempts in non-decreasing timestamp order whatever order the
adapter returned; the arxiv checker issues attempts in reverse adapter
order, which is non-decreasing only when the adapter returned
non-increasing timestamps (as requested from the API). -/
theorem c2_ordering (notify : Feed.Entry → Bool)
    (hist₀ : List (Option String)) (threshold : Int)
    (entries : List Feed.Entry) (cnotify : Crawl.Item → Bool)
    (chist : List String) (items : List Crawl.Item)
    (kwMatch : String → String → Bool) (anotify : Arxiv.Paper → Bool)
    (ahist : List String) (kws : List String)
    (results : List Arxiv.Paper) :
    List.Sorted Feed.rle
      (Rss.processEntries notify hist₀ threshold entries).attempts ∧
    List.Sorted Feed.rle
      (Youtube.processEntries notify hist₀ threshold entries).attempts ∧
    List.Sorted (fun a b : String × Crawl.Item =>
        Crawl.parse_date_safe a.2.published ≤
          Crawl.parse_date_safe b.2.published)
      (Crawl.processItems cnotify chist items).attempts ∧
    (List.Sorted (fun a b : Arxiv.Paper => b.published ≤ a.published)
        results →
      List.Sorted (fun a b : Arxiv.Paper => a.published ≤ b.published)
        (Arxiv.runSearches kwMatch anotify ahist
          [⟨kws, some results⟩]).attempts) := by
  refine ⟨procEntries_attempts_sorted _ _ _ _ _,
    procEntries_attempts_sorted _ _ _ _ _, ?_, ?_⟩
  · rcases crawl_processItems_anatomy cnotify chist items with
      ⟨heq, _⟩ | ⟨_, heq⟩
    · rw [heq]; exact List.sorted_nil
    · rw [heq]
      simp only []
      refine List.pairwise_reverse.mpr ?_
      have hni := crawl_candidates_pairwise chist items
      split
      · exact hni.sublist (List.take_sublist _ _)
      · exact hni
  · intro hres
    obtain ⟨l', hsub, heq⟩ := arxiv_papers_attempts_sublist kwMatch anotify
      kws results.reverse ⟨ahist, [], 0, [], []⟩
    have hrun : (Arxiv.runSearches kwMatch anotify ahist
        [⟨kws, some results⟩]).attempts = l' := by
      show (Arxiv.searchStep kwMatch anotify ⟨ahist, [], 0, [], []⟩
        ⟨kws, some results⟩).attempts = l'
      unfold Arxiv.searchStep
      split
      · rename_i hfull
        simp [Arxiv.MAX_NOTIFICATIONS_PER_RUN] at hfull
      · simpa using heq
    rw [hrun]
    refine List.Pairwise.sublist hsub ?_
    exact List.pairwise_reverse.mpr hres

/-- Claim C2, amended-theorem witness at a concrete input: with an adapter
returning papers newest-first, the arxiv attempts come out in ascending
date order. -/
theorem c2_ordering_witness :
    List.Sorted (fun a b : Arxiv.Paper => a.published ≤ b.published)
      (Arxiv.runSearches (fun _ _ => false) (fun _ => true) []
        [⟨[], some [⟨"a", "", "", 3⟩, ⟨"b", "", "", 1⟩]⟩]).attempts :=
  (c2_ordering (fun _ => true) [] 0 [] (fun _ => true) [] []
    (fun _ _ => false) (fun _ => true) [] []
    [⟨"a", "", "", 3⟩, ⟨"b", "", "", 1⟩]).2.2.2 (by decide)

/-- Claim C1, counterexample: the rss checker has no flood guard — a feed
with 4 fresh candidates (more than the claimed threshold 3) gets all 4
delivered, not exactly one. -/
theorem c1_counterexample :
    3 < (Rss.check_feeds (fun _ _ => true) 100 false (fun _ => [])
        [⟨"blog", 1, some [⟨some "a", none, some 98, "t1"⟩,
          ⟨some "b", none, some 98, "t2"⟩,
          ⟨some "c", none, some 99, "t3"⟩,
          ⟨some "d", none, some 100, "t4"⟩]⟩]).1.deliveries.length ∧
      (Rss.check_feeds (fun _ _ => true) 100 false (fun _ => [])
        [⟨"blog", 1, some [⟨some "a", none, some 98, "t1"⟩,
          ⟨some "b", none, some 98, "t2"⟩,
          ⟨some "c", none, some 99, "t3"⟩,
          ⟨some "d", none, some 100, "t4"⟩]⟩]).1.deliveries.length = 4 :=
  ⟨by decide, by decide⟩

/-- Claim C1, amended: the crawl checker implements the flood guard with
threshold 3. With more than 3 candidates exactly one delivery attempt is
made, for a chronologically-latest candidate; the silent-suppression flag
is raised, and when that delivery succeeds the appended identities are a
permutation of all candidates' identities. With at most 3 candidates all
of them are attempted (oldest first) and nothing is silently suppressed:
the mutation flag tracks successful deliveries only. The rss checker
applies no flood guard. -/
theorem c1_flood_guard (notify : Crawl.Item → Bool) (hist₀ : List String)
    (items : List Crawl.Item) :
    (3 < (Crawl.candidates hist₀ items).length →
      (Crawl.processItems notify hist₀ items).attempts =
        (Crawl.candidates hist₀ items).take 1 ∧
      (Crawl.processItems notify hist₀ items).attempts.length = 1 ∧
      (∀ x ∈ (Crawl.processItems notify hist₀ items).attempts,
        ∀ y ∈ Crawl.candidates hist₀ items,
          Crawl.parse_date_safe y.2.published ≤
            Crawl.parse_date_safe x.2.published) ∧
      (Crawl.processItems notify hist₀ items).mutated = true ∧
      ((∀ x ∈ (Crawl.processItems notify hist₀ items).attempts,
          notify x.2 = true) →
        (Crawl.processItems notify hist₀ items).hist =
          truncTo 50 (hist₀ ++
            (((Crawl.candidates hist₀ items).drop 1).map Prod.fst ++
              ((Crawl.candidates hist₀ items).take 1).map Prod.fst)) ∧
        (((Crawl.candidates hist₀ items).drop 1).map Prod.fst ++
            ((Crawl.candidates hist₀ items).take 1).map Prod.fst).Perm
          ((Crawl.candidates hist₀ items).map Prod.fst))) ∧
    ((Crawl.candidates hist₀ items).length ≤ 3 →
      (Crawl.processItems notify hist₀ items).attempts =
        (Crawl.candidates hist₀ items).reverse ∧
      (Crawl.processItems notify hist₀ items).mutated =
        !(Crawl.processItems notify hist₀ items).delivered.isEmpty ∧
      ((∀ x ∈ (Crawl.processItems notify hist₀ items).attempts,
          notify x.2 = true) →
        (Crawl.processItems notify hist₀ items).delivered.length =
          (Crawl.candidates hist₀ items).length)) := by
  rcases crawl_processItems_anatomy notify hist₀ items with
    ⟨heq, hni⟩ | ⟨hne, heq⟩
  · constructor
    · intro h3
      rw [hni] at h3
      simp at h3
    · intro _
      rw [heq, hni]
      exact ⟨rfl, rfl, fun _ => rfl⟩
  · constructor
    · intro h3
      have hatt : (Crawl.processItems notify hist₀ items).attempts =
          (Crawl.candidates hist₀ items).take 1 := by
        rw [heq]
        simp only []
        rw [if_pos h3]
        exact reverse_take_one _
      refine ⟨hatt, ?_, ?_, ?_, ?_⟩
      · rw [hatt, List.length_take]
        omega
      · intro x hx y hy
        rw [hatt] at hx
        exact crawl_candidates_head_max hx hy
      · rw [heq]
        simp only []
        rw [if_pos h3]
        simp
      · intro hall
        rw [hatt] at hall
        have hfil : ((Crawl.candidates hist₀ items).take 1).reverse.filter
            (fun li => notify li.2) =
            ((Crawl.candidates hist₀ items).take 1).reverse := by
          refine List.filter_eq_self.mpr fun a ha => ?_
          exact hall a (List.mem_reverse.mp ha)
        constructor
        · rw [heq]
          simp only []
          rw [if_pos h3]
          simp only [hfil]
          rw [reverse_take_one, List.append_assoc]
        · refine List.Perm.trans List.perm_append_comm ?_
          rw [← List.map_append, List.take_append_drop]
    · intro h3
      have h3' : ¬ 3 < (Crawl.candidates hist₀ items).length := by omega
      have hatt : (Crawl.processItems notify hist₀ items).attempts =
          (Crawl.candidates hist₀ items).reverse := by
        rw [heq]
        simp only []
        rw [if_neg h3']
      refine ⟨hatt, ?_, ?_⟩
      · rw [heq]
        simp only []
        rw [if_neg h3']
        simp
      · intro hall
        rw [hatt] at hall
        have hfil : (Crawl.candidates hist₀ items).reverse.filter
            (fun li => notify li.2) =
            (Crawl.candidates hist₀ items).reverse :=
          List.filter_eq_self.mpr fun a ha => hall a ha
        have hdel : (Crawl.processItems notify hist₀ items).delivered =
            (Crawl.candidates hist₀ items).reverse := by
          rw [heq]
          simp only []
          rw [if_neg h3']
          exact hfil
        rw [hdel, List.length_reverse]

/-- Claim C1, amended-theorem witness at a concrete input: five fresh
items trigger the guard, exactly one attempt is made, and (with a
succeeding notifier) the appended identities are a permutation of all five
candidate links. -/
theorem c1_flood_guard_witness :
    (Crawl.processItems (fun _ => true) []
        [⟨some "l1", some 1, "a"⟩, ⟨some "l2", some 2, "b"⟩,
          ⟨some "l3", some 3, "c"⟩, ⟨some "l4", some 4, "d"⟩,
          ⟨some "l5", some 5, "e"⟩]).attempts.length = 1 ∧
    (((Crawl.candidates []
        [⟨some "l1", some 1, "a"⟩, ⟨some "l2", some 2, "b"⟩,
          ⟨some "l3", some 3, "c"⟩, ⟨some "l4", some 4, "d"⟩,
          ⟨some "l5", some 5, "e"⟩]).drop 1).map Prod.fst ++
      ((Crawl.candidates []
        [⟨some "l1", some 1, "a"⟩, ⟨some "l2", some 2, "b"⟩,
          ⟨some "l3", some 3, "c"⟩, ⟨some "l4", some 4, "d"⟩,
          ⟨some "l5", some 5, "e"⟩]).take 1).map Prod.fst).Perm
      ((Crawl.candidates []
        [⟨some "l1", some 1, "a"⟩, ⟨some "l2", some 2, "b"⟩,
          ⟨some "l3", some 3, "c"⟩, ⟨some "l4", some 4, "d"⟩,
          ⟨some "l5", some 5, "e"⟩]).map Prod.fst) := by
  have h := (c1_flood_guard (fun _ => true) []
    [⟨some "l1", some 1, "a"⟩, ⟨some "l2", some 2, "b"⟩,
      ⟨some "l3", some 3, "c"⟩, ⟨some "l4", some 4, "d"⟩,
      ⟨some "l5", some 5, "e"⟩]).1 (by decide)
  exact ⟨h.2.1, (h.2.2.2.2 (fun x _ => rfl)).2⟩

/-- Claim C9: after a run, every source's history is within its bound — 50
per feed for the rss checker, 20 for the youtube checker (given the loaded
store already respected the bound, as any store written by these checkers
does), 100 for the arxiv list (unconditionally, enforced by
`save_history`); truncation always keeps a suffix, i.e. drops the oldest
entries first. -/
theorem c9_bounded_history (notify : String → Feed.Entry → Bool) (now : Int)
    (m : Bool) (hist₀ : String → List (Option String)) (cfgs : List Rss.Cfg)
    (ynotify : String → Feed.Entry → Bool) (ynow : Int)
    (yhist₀ : String → List (Option String)) (ycfgs : List Youtube.Cfg) :
    ((∀ s, (hist₀ s).length ≤ 50) →
      ∀ s, ((Rss.check_feeds notify now m hist₀ cfgs).1.hist s).length ≤ 50) ∧
    ((∀ s, (yhist₀ s).length ≤ 20) →
      ∀ s, ((Youtube.check_feeds ynotify ynow yhist₀
        ycfgs).1.hist s).length ≤ 20) ∧
    (∀ l : List String,
      (Arxiv.save_history l).length ≤ Arxiv.MAX_HISTORY_SIZE ∧
        (Arxiv.save_history l).IsSuffix l) ∧
    (∀ (n : Nat) (l : List (Option String)), (truncTo n l).IsSuffix l) := by
  refine ⟨?_, ?_, ?_, fun n l => truncTo_suffix n l⟩
  · intro hb
    exact runSt_hist_bound_foldl (Rss.runStep notify now m) 50
      (rss_runStep_hist_cases notify now m) cfgs ⟨hist₀, false, [], []⟩ hb
  · intro hb
    exact runSt_hist_bound_foldl (Youtube.runStep ynotify ynow) 20
      (yt_runStep_hist_cases ynotify ynow) ycfgs ⟨yhist₀, false, [], []⟩ hb
  · intro l
    exact ⟨truncTo_length_le _ _, truncTo_suffix _ _⟩

/-- Claim C9 witness at a concrete input. -/
theorem c9_bounded_history_witness :
    ((Rss.check_feeds (fun _ _ => true) 100 false (fun _ => [])
        [⟨"a", 1, some [⟨some "x", none, some 99, "t"⟩]⟩]).1.hist
      "a").length ≤ 50 :=
  (c9_bounded_history (fun _ _ => true) 100 false (fun _ => [])
    [⟨"a", 1, some [⟨some "x", none, some 99, "t"⟩]⟩]
    (fun _ _ => true) 100 (fun _ => []) []).1 (fun _ => by simp) "a"

/-- Claim C10: the youtube checker never attempts a Short — every
attempted entry fails `is_youtube_short` (link containing `/shorts/` or
lowercased title containing `#shorts`), deliveries are exactly the
successful attempts, and every history entry after the run is either
pre-existing or the identity of a delivered non-Short, so a Short's
identity is never recorded and the entry is re-examined on later runs. -/
theorem c10_shorts_suppressed (notify : Feed.Entry → Bool)
    (hist₀ : List (Option String)) (threshold : Int)
    (entries : List Feed.Entry) :
    (∀ e ∈ (Youtube.processEntries notify hist₀ threshold entries).attempts,
        Youtube.is_youtube_short e = false) ∧
    (Youtube.processEntries notify hist₀ threshold entries).delivered =
      (Youtube.processEntries notify hist₀ threshold
        entries).attempts.filter notify ∧
    (∀ i ∈ (Youtube.processEntries notify hist₀ threshold entries).hist,
        i ∈ hist₀ ∨
        ∃ e ∈ (Youtube.processEntries notify hist₀ threshold
            entries).attempts,
          notify e = true ∧ Feed.post_id e = i) := by
  refine ⟨?_, procEntries_delivered _ _ _ _ _, ?_⟩
  · intro e he
    exact yt_keep_not_short (procEntries_attempts_mem he).2
  · intro i hi
    rw [Youtube.processEntries, procEntries_hist] at hi
    rcases List.mem_append.mp (mem_of_mem_truncTo hi) with hi | hi
    · exact Or.inl hi
    · obtain ⟨e, he, hid⟩ := List.mem_map.mp hi
      exact Or.inr ⟨e, List.mem_of_mem_filter he,
        List.of_mem_filter he, hid⟩

/-- Claim C10 witness at a concrete input: in a feed holding one Short and
one ordinary fresh video, the ordinary one is attempted and is indeed not
a Short. -/
theorem c10_shorts_suppressed_witness :
    Youtube.is_youtube_short
      ⟨some "v2", some "https://www.youtube.com/watch?v=2", some 99,
        "good video"⟩ = false :=
  (c10_shorts_suppressed (fun _ => true) [] 0
    [⟨some "v1", some "https://www.youtube.com/shorts/1", some 98, "s"⟩,
      ⟨some "v2", some "https://www.youtube.com/watch?v=2", some 99,
        "good video"⟩]).1
    ⟨some "v2", some "https://www.youtube.com/watch?v=2", some 99,
      "good video"⟩ (by decide)
